import Mathlib

namespace VechainMcp

/-- A JSON value. -/
inductive Json where
  | null
  | bool (b : Bool)
  | num (q : Rat)
  | str (s : String)
  | arr (elems : List Json)
  | obj (fields : List (String × Json))
  deriving Repr

mutual

/-- Structural equality of JSON values (the `===`-style comparison zod's
`literal` validator performs on primitive values). -/
def Json.beq : Json → Json → Bool
  | .null, .null => true
  | .bool a, .bool b => a == b
  | .num a, .num b => a == b
  | .str a, .str b => a == b
  | .arr a, .arr b => Json.beqList a b
  | .obj a, .obj b => Json.beqFields a b
  | _, _ => false
termination_by a _ => sizeOf a

def Json.beqList : List Json → List Json → Bool
  | [], [] => true
  | a :: as, b :: bs => Json.beq a b && Json.beqList as bs
  | _, _ => false
termination_by as _ => sizeOf as

def Json.beqFields : List (String × Json) → List (String × Json) → Bool
  | [], [] => true
  | (k, a) :: as, (l, b) :: bs => k == l && Json.beq a b && Json.beqFields as bs
  | _, _ => false
termination_by fs _ => sizeOf fs

end

structure Issue where
  path : List String
  message : String
  deriving Repr, DecidableEq

inductive ZodType where
  | any
  | string (minLen maxLen : Option Nat) (pat : Option (String → Bool))
  | number (isInt : Bool) (minimum maximum : Option Rat)
  | boolean
  | literal (v : Json)
  | union (options : List ZodType)
  | array (elem : ZodType) (minItems maxItems : Option Nat)
  | object (shape : List (String × ZodType)) (passthru : Bool)
  | record (valueType : ZodType)
  | optional (inner : ZodType)

def alistLookup {α : Type} : List (String × α) → String → Option α
  | [], _ => none
  | (k', v) :: rest, k => if k' = k then some v else alistLookup rest k

def Json.typeName : Json → String
  | .null => "null"
  | .bool _ => "boolean"
  | .num _ => "number"
  | .str _ => "string"
  | .arr _ => "array"
  | .obj _ => "object"

mutual

def zodParse : ZodType → Option Json → Except (List Issue) (Option Json)
  | .any, v => .ok v
  | .optional _, none => .ok none
  | .optional t, some x => zodParse t (some x)
  | .string _ _ _, none => .error [⟨[], "Required"⟩]
  | .string minLen maxLen pat, some v =>
      match v with
      | .str s =>
          let issues :=
            (match minLen with
             | some m => if s.length < m then [Issue.mk [] "Too small"] else []
             | none => []) ++
            (match maxLen with
             | some m => if s.length > m then [Issue.mk [] "Too big"] else []
             | none => []) ++
            (match pat with
             | some test => if test s then [] else [Issue.mk [] "Invalid"]
             | none => [])
          if issues.isEmpty then .ok (some (.str s)) else .error issues
      | _ => .error [⟨[], "Expected string, received " ++ v.typeName⟩]
  | .number _ _ _, none => .error [⟨[], "Required"⟩]
  | .number isInt mini maxi, some v =>
      match v with
      | .num q =>
          let issues :=
            (if isInt && (q.den != 1) then [Issue.mk [] "Expected integer, received float"] else []) ++
            (match mini with
             | some m => if q < m then [Issue.mk [] "Too small"] else []
             | none => []) ++
            (match maxi with
             | some m => if m < q then [Issue.mk [] "Too big"] else []
             | none => [])
          if issues.isEmpty then .ok (some (.num q)) else .error issues
      | _ => .error [⟨[], "Expected number, received " ++ v.typeName⟩]
  | .boolean, none => .error [⟨[], "Required"⟩]
  | .boolean, some v =>
      match v with
      | .bool b => .ok (some (.bool b))
      | _ => .error [⟨[], "Expected boolean, received " ++ v.typeName⟩]
  | .literal _, none => .error [⟨[], "Invalid literal value"⟩]
  | .literal lit, some v =>
      if Json.beq v lit then .ok (some v) else .error [⟨[], "Invalid literal value"⟩]
  | .union opts, v => parseUnion opts v
  | .array _ _ _, none => .error [⟨[], "Required"⟩]
  | .array elemT minI maxI, some v =>
      match v with
      | .arr xs =>
          let sizeIssues :=
            (match minI with
             | some m => if xs.length < m then [Issue.mk [] "Too small"] else []
             | none => []) ++
            (match maxI with
             | some m => if xs.length > m then [Issue.mk [] "Too big"] else []
             | none => [])
          let r := parseElems elemT xs 0
          if (sizeIssues ++ r.2).isEmpty then .ok (some (.arr r.1))
          else .error (sizeIssues ++ r.2)
      | _ => .error [⟨[], "Expected array, received " ++ v.typeName⟩]
  | .object _ _, none => .error [⟨[], "Required"⟩]
  | .object shape passthru, some v =>
      match v with
      | .obj fields =>
          let r := parseShape shape fields
          if r.2.isEmpty then
            .ok (some (.obj (if passthru
              then r.1 ++ fields.filter (fun f => (alistLookup shape f.1).isNone)
              else r.1)))
          else .error r.2
      | _ => .error [⟨[], "Expected object, received " ++ v.typeName⟩]
  | .record _, none => .error [⟨[], "Required"⟩]
  | .record valT, some v =>
      match v with
      | .obj fields =>
          let r := parseRecord valT fields
          if r.2.isEmpty then .ok (some (.obj r.1)) else .error r.2
      | _ => .error [⟨[], "Expected object, received " ++ v.typeName⟩]
termination_by t v => (sizeOf t, sizeOf v)

def parseUnion : List ZodType → Option Json → Except (List Issue) (Option Json)
  | [], _ => .error [⟨[], "Invalid input"⟩]
  | t :: ts, v =>
      match zodParse t v with
      | .ok r => .ok r
      | .error _ => parseUnion ts v
termination_by ts v => (sizeOf ts, sizeOf v)

def parseShape : List (String × ZodType) → List (String × Json) →
    List (String × Json) × List Issue
  | [], _ => ([], [])
  | (k, t) :: rest, fields =>
      let tail := parseShape rest fields
      match zodParse t (alistLookup fields k) with
      | .ok none => tail
      | .ok (some w) => ((k, w) :: tail.1, tail.2)
      | .error issues => (tail.1, issues.map (fun i => ⟨k :: i.path, i.message⟩) ++ tail.2)
termination_by shape _ => (sizeOf shape, 0)

def parseElems : ZodType → List Json → Nat → List Json × List Issue
  | _, [], _ => ([], [])
  | t, x :: xs, i =>
      let tail := parseElems t xs (i + 1)
      match zodParse t (some x) with
      | .ok (some w) => (w :: tail.1, tail.2)
      | .ok none => tail
      | .error issues => (tail.1, issues.map (fun e => ⟨toString i :: e.path, e.message⟩) ++ tail.2)
termination_by t xs _ => (sizeOf t, 1 + 2 * sizeOf xs)

def parseRecord : ZodType → List (String × Json) → List (String × Json) × List Issue
  | _, [] => ([], [])
  | t, (k, x) :: rest =>
      let tail := parseRecord t rest
      match zodParse t (some x) with
      | .ok (some w) => ((k, w) :: tail.1, tail.2)
      | .ok none => tail
      | .error issues => (tail.1, issues.map (fun i => ⟨k :: i.path, i.message⟩) ++ tail.2)
termination_by t fields => (sizeOf t, sizeOf fields)

end

/-- The keys of a provider-supplied JSON-Schema-like document
(`type JsonSchema = any` in src/utils.ts) that the compiler inspects.
A field is `none` when the key is absent, or when it carries a value of the
wrong JS type, which the source's `typeof`/`Array.isArray` guards treat the
same as absence. -/
structure SchemaFields (α : Type) where
  ty : Option String := none
  enm : Option (List Json) := none
  cst : Option Json := none
  minLength : Option Nat := none
  maxLength : Option Nat := none
  pattern : Option String := none
  minimum : Option Rat := none
  maximum : Option Rat := none
  minItems : Option Nat := none
  maxItems : Option Nat := none
  items : Option α := none
  properties : Option (List (String × α)) := none
  required : Option (List String) := none
  additionalProperties : Option Json := none

/-- A schema document handed to the compiler.  `jnull` is a falsy document
(`null`/`undefined`); `native` is a pre-built zod validator supplied in
place of a document (the source detects it via its `parse`/`_parse`
method). -/
inductive SchemaNode where
  | jnull
  | native (t : ZodType)
  | node (f : SchemaFields SchemaNode)

/-- Sequences an option-producing map over a list: the `for` loop of the
source, which propagates the first exception (`none`). -/
def traverseOption {α β : Type} (g : α → Option β) : List α → Option (List β)
  | [] => some []
  | a :: as =>
      match g a, traverseOption g as with
      | some b, some bs => some (b :: bs)
      | _, _ => none

/-- Embedding of `jsonSchemaPropToZod` from src/utils.ts.  `rc` models `new RegExp`:
`rc p = none` is a pattern that fails to compile (the thrown SyntaxError the
source catches and ignores).  `fuel` bounds the JS call stack; a `none`
result models the stack-overflow exception an unbounded recursion raises.
Note the default branch: the source recurses on
`{ type: "object", ...schema }`, so a *present* unrecognized `type` key is
spread back over the `"object"` tag and the argument is unchanged. -/
def jsonSchemaPropToZod (rc : String → Option (String → Bool)) :
    Nat → SchemaNode → Option ZodType
  | 0, _ => none
  | _ + 1, .jnull => some .any
  | _ + 1, .native _ => some .any
  | fuel + 1, .node f =>
      match f.enm with
      | some vs =>
          some (match vs.map ZodType.literal with
            | [l] => l
            | ls => .union ls)
      | none =>
        match f.cst with
        | some c => some (.literal c)
        | none =>
          match f.ty with
          | some "string" => some (.string f.minLength f.maxLength (f.pattern.bind rc))
          | some "number" => some (.number false f.minimum f.maximum)
          | some "integer" => some (.number true f.minimum f.maximum)
          | some "boolean" => some .boolean
          | some "array" =>
              match f.items with
              | some it =>
                  (jsonSchemaPropToZod rc fuel it).map (fun e => .array e f.minItems f.maxItems)
              | none => some (.array .any f.minItems f.maxItems)
          | some "object" =>
              (traverseOption (fun kv =>
                  (jsonSchemaPropToZod rc fuel kv.2).map (fun c =>
                    (kv.1, if (f.required.getD []).contains kv.1 then c else .optional c)))
                (f.properties.getD [])).map
                (fun shape => ZodType.object shape true)
          | _ =>
              match f.properties with
              | some _ =>
                  match f.ty with
                  | none => jsonSchemaPropToZod rc fuel (.node { f with ty := some "object" })
                  | some _ => jsonSchemaPropToZod rc fuel (.node f)
              | none => some .any

/-- The special-case test of `jsonSchemaToZodRoot`: a property whose own
schema is `{type:"object", additionalProperties:true}` with a present but
empty `properties`. -/
def isFreeformObject : SchemaNode → Bool
  | .node f =>
      match f.ty, f.additionalProperties, f.properties with
      | some "object", some (.bool true), some [] => true
      | _, _, _ => false
  | _ => false

/-- The per-property body of the root compiler's loop: the free-form case
compiles to `z.record(z.any())`, every other property goes through
`jsonSchemaPropToZod`; a property not named in `required` is wrapped
`.optional()`. -/
def rootPropZod (rc : String → Option (String → Bool)) (fuel : Nat)
    (req : List String) (kv : String × SchemaNode) : Option (String × ZodType) :=
  if isFreeformObject kv.2 then
    some (kv.1, if req.contains kv.1 then ZodType.record .any else .optional (.record .any))
  else
    (jsonSchemaPropToZod rc fuel kv.2).map
      (fun c => (kv.1, if req.contains kv.1 then c else .optional c))

/-- Embedding of `jsonSchemaToZodRoot` from src/utils.ts.  A falsy document gives
`z.object({})`; a document that already behaves as a validator (has a
`parse`/`_parse` method) is returned unchanged; an object-shaped document is
compiled field by field and — in both branches of the source's
`additionalProperties` conditional — finished with `.strip()`, i.e. unknown
keys are removed (`passthru = false`); anything else gives `z.object({})`. -/
def jsonSchemaToZodRoot (rc : String → Option (String → Bool)) (fuel : Nat) :
    SchemaNode → Option ZodType
  | .jnull => some (.object [] false)
  | .native t => some t
  | .node f =>
      if f.ty == some "object" || f.properties.isSome then
        (traverseOption (rootPropZod rc fuel (f.required.getD [])) (f.properties.getD [])).map
          (fun shape => ZodType.object shape false)
      else
        some (.object [] false)

/-- A Goat-SDK tool descriptor as `buildToolZodMap` consumes it. -/
structure ToolDescriptor where
  name : String
  inputSchema : Option SchemaNode

/-- The raw schema passed to the compiler, `t?.inputSchema ?? t`: when the descriptor carries no `inputSchema`, the
descriptor object itself is passed to the compiler; it carries none of the
schema keys, so it behaves as the empty document. -/
def rawSchema (t : ToolDescriptor) : SchemaNode :=
  match t.inputSchema with
  | some s => s
  | none => .node {}

/-- The check `zodSchema._def?.typeName?.startsWith?.("ZodObject")`: only a `ZodObject`
(whatever its unknown-keys policy) passes. -/
def isZodObject : ZodType → Bool
  | .object _ _ => true
  | _ => false

/-- The body of `buildToolZodMap`'s loop for one tool: compile the raw schema,
keep it only if it is a `ZodObject`, and on any exception (`none`) fall back
to `z.object({})` — the `catch` branch. -/
def compiledEntry (rc : String → Option (String → Bool)) (fuel : Nat)
    (t : ToolDescriptor) : ZodType :=
  match jsonSchemaToZodRoot rc fuel (rawSchema t) with
  | some z => if isZodObject z then z else .object [] false
  | none => .object [] false

/-- Embedding of `Map.set`: replace in place when the key is present, append otherwise. -/
def mapSet {α : Type} : List (String × α) → String → α → List (String × α)
  | [], k, v => [(k, v)]
  | (k', v') :: rest, k, v =>
      if k' = k then (k, v) :: rest else (k', v') :: mapSet rest k v

/-- Embedding of `buildToolZodMap` from src/utils.ts. -/
def buildToolZodMap (rc : String → Option (String → Bool)) (fuel : Nat)
    (tools : List ToolDescriptor) : List (String × ZodType) :=
  tools.foldl (fun m t => mapSet m t.name (compiledEntry rc fuel t)) []

/-- Embedding of `Array.prototype.join`. -/
def joinSep (sep : String) : List String → String
  | [] => ""
  | [x] => x
  | x :: y :: rest => x ++ sep ++ joinSep sep (y :: rest)

/-- One line of the diagnostic `parseToolInput` builds from a zod issue:
`` `${path}: ${message}` `` with `"<root>"` for an empty path. -/
def formatIssue (i : Issue) : String :=
  (if i.path.isEmpty then "<root>" else joinSep "." i.path) ++ ": " ++ i.message

/-- Embedding of `parseToolInput` from src/utils.ts.  `Except.error` carries the message of
the `Error` the source throws; `input = none` models `undefined` arguments
(`input ?? {}` also replaces an explicit `null`). -/
def parseToolInput (toolSchemaMap : List (String × ZodType)) (toolName : String)
    (input : Option Json) : Except String Json :=
  match alistLookup toolSchemaMap toolName with
  | none => .ok (.obj [])
  | some schema =>
      let arg : Json :=
        match input with
        | none => .obj []
        | some .null => .obj []
        | some v => v
      match zodParse schema (some arg) with
      | .ok r => .ok (r.getD .null)
      | .error issues =>
          .error ("Input validation failed for tool \"" ++ toolName ++ "\": "
            ++ joinSep "; " (issues.map formatIssue))

mutual

/-- Abstraction of `JSON.stringify`: the exact formatting (indentation, string
escaping, number rendering) is not modelled, no claim depends on it. -/
def jsonStringify : Json → String
  | .null => "null"
  | .bool true => "true"
  | .bool false => "false"
  | .num q => toString q
  | .str s => "\"" ++ s ++ "\""
  | .arr xs => "[" ++ stringifyList xs ++ "]"
  | .obj fs => "\x7b" ++ stringifyFields fs ++ "\x7d"
termination_by v => sizeOf v

def stringifyList : List Json → String
  | [] => ""
  | [x] => jsonStringify x
  | x :: y :: rest => jsonStringify x ++ "," ++ stringifyList (y :: rest)
termination_by xs => sizeOf xs

def stringifyFields : List (String × Json) → String
  | [] => ""
  | [(k, v)] => "\"" ++ k ++ "\":" ++ jsonStringify v
  | (k, v) :: y :: rest =>
      "\"" ++ k ++ "\":" ++ jsonStringify v ++ "," ++ stringifyFields (y :: rest)
termination_by fs => sizeOf fs

end

/-- One `{type:"text", text}` item of a tool result. -/
structure ContentItem where
  itemType : String
  text : String

/-- The response envelope a registered tool callback produces. -/
structure CallToolResult where
  content : List ContentItem
  isError : Bool

/-- The per-tool callback `createVechainServer` registers for each Goat-SDK
tool (src/index.ts, the first registration loop): validate the arguments via
`parseToolInput`, call the provider's dispatch function `toolHandler`, and
wrap the result in a text envelope.  An `Except.error` is a thrown
exception — from validation or from the handler — that the callback itself
does not catch. -/
def goatToolCallback (toolSchemaMap : List (String × ZodType))
    (toolHandler : String → Json → Except String Json)
    (name : String) (args : Option Json) : Except String CallToolResult := do
  let parsedArgs ← parseToolInput toolSchemaMap name args
  let result ← toolHandler name parsedArgs
  pure ⟨[⟨"text", jsonStringify result⟩], false⟩

/-- Modelled from the spec: the per-tool callback boundary of
`McpServer.registerTool` — the Dispatcher of §4.4, which lives in the
`@modelcontextprotocol/sdk` dependency and not under this repository's
sources.  "Any exception raised by a handler ... is caught at this boundary
and converted into the envelope's error form; the dispatcher itself never
lets a handler exception propagate to the transport layer uncaught." -/
def dispatchTool (cb : Option Json → Except String CallToolResult)
    (args : Option Json) : CallToolResult :=
  match cb args with
  | .ok r => r
  | .error msg => ⟨[⟨"text", msg⟩], true⟩

/-- A tool as it sits in the server's registry: its descriptor text and its
registered callback. -/
structure RegisteredTool where
  description : String
  callback : Option Json → Except String CallToolResult

/-- Modelled from the spec: the name-keyed tool registry `McpServer` keeps
(not under this repository's sources).  `createVechainServer` registers the
Goat-SDK tools first and the native `vechainTools` second, one
`server.registerTool(name, …)` call per tool, in list order; per the spec's
collision policy "last-registered wins", a later registration under an
already-used name replaces the earlier entry. -/
def registerAll (ts : List (String × RegisteredTool)) : List (String × RegisteredTool) :=
  ts.foldl (fun reg nt => mapSet reg nt.1 nt.2) []

/-- The last element of `ts` carrying name `n` (the provider whose
registration of `n` came last). -/
def lastNamed {α : Type} (key : α → String) (ts : List α) (n : String) : Option α :=
  ts.foldl (fun acc t => if key t = n then some t else acc) none

/-- Field lookup on a JSON value: `none` on anything but an object. -/
def jsonLookup : Json → String → Option Json
  | .obj fs, k => alistLookup fs k
  | _, _ => none

/-- A schema node whose compiled validator returns every accepted value
unchanged and rejects `undefined`: an `enum`/`const` node or a node of
declared primitive type. -/
def isPrimNode : SchemaNode → Bool
  | .node f =>
      f.enm.isSome || f.cst.isSome ||
        (match f.ty with
         | some "string" => true
         | some "number" => true
         | some "integer" => true
         | some "boolean" => true
         | _ => false)
  | _ => false

/-- A regex compiler under which every pattern fails to compile (the concrete
instantiation used by witnesses; the theorems quantify over `rc`). -/
def rcNone : String → Option (String → Bool) := fun _ => none

/-- The node `{type:"vendor-custom", properties:{}}`: a structurally well-formed node of
unrecognized kind that carries (empty) field declarations. -/
def badPropNode : SchemaNode :=
  .node { ty := some "vendor-custom", properties := some [] }

/-- An object document one of whose properties is `badPropNode`. -/
def badRootNode : SchemaNode :=
  .node { ty := some "object", properties := some [("p", badPropNode)] }

/-- The field record of a string-typed property node with no constraints. -/
def addressStringFields : SchemaFields SchemaNode := { ty := some "string" }

/-- A string-typed property node with no constraints. -/
def addressStringNode : SchemaNode := .node addressStringFields

/-- The field record of the spec's concrete scenario schema (§8), minus the
regex pattern:
`{type:"object", properties:{address:{type:"string"}}, required:["address"]}`. -/
def getAccountFields : SchemaFields SchemaNode :=
  { ty := some "object",
    properties := some [("address", addressStringNode)],
    required := some ["address"] }

/-- The spec's concrete scenario schema as a node. -/
def getAccountSchema : SchemaNode := .node getAccountFields

/-- A node carrying none of the schema keys: compiles to accept-all. -/
def emptyPropNode : SchemaNode := .node {}

/-- An object schema declaring a required property whose own schema is the
empty document: `{type:"object", properties:{p:{}}, required:["p"]}`. -/
def requiredAnySchema : SchemaNode :=
  .node { ty := some "object",
          properties := some [("p", emptyPropNode)],
          required := some ["p"] }

/-- The free-form marker node:
`{type:"object", properties:{}, additionalProperties:true}`. -/
def freeformNode : SchemaNode :=
  .node { ty := some "object", properties := some [],
          additionalProperties := some (.bool true) }

/-- A string-typed node with an uncompilable pattern, for the C7 witness. -/
def badPatternFields : SchemaFields SchemaNode :=
  { ty := some "string", pattern := some "((" }

/-- An earlier-registered tool whose name collides, for the C9 witness. -/
def firstRegistered : RegisteredTool :=
  ⟨"first provider", fun _ => .ok ⟨[⟨"text", "from first"⟩], false⟩⟩

/-- A later-registered tool of the same name, for the C9 witness. -/
def secondRegistered : RegisteredTool :=
  ⟨"second provider", fun _ => .ok ⟨[⟨"text", "from second"⟩], false⟩⟩

/-- A descriptor whose schema makes compilation throw, for C4. -/
def badTool : ToolDescriptor := ⟨"bad", some badRootNode⟩

/-- The object root used by the C8 witness: one optional free-form property
named `"metadata"`. -/
def freeformRootFields : SchemaFields SchemaNode :=
  { ty := some "object", properties := some [("metadata", freeformNode)] }

section Lemmas

theorem joinSep_infix (sep a : String) :
    ∀ l : List String, a ∈ l → ∃ pre post, joinSep sep l = pre ++ a ++ post := by
  intro l
  induction l with
  | nil => intro h; cases h
  | cons x xs ih =>
      intro h
      match xs, h with
      | [], h =>
          cases h with
          | head => exact ⟨"", "", by simp [joinSep]⟩
          | tail _ h => cases h
      | y :: rest, h =>
          cases h with
          | head => exact ⟨"", sep ++ joinSep sep (y :: rest), by simp [joinSep, String.append_assoc]⟩
          | tail _ h =>
              obtain ⟨pre, post, hp⟩ := ih h
              refine ⟨x ++ sep ++ pre, post, ?_⟩
              simp [joinSep, hp, String.append_assoc]

theorem alistLookup_eq_none {α : Type} (k : String) :
    ∀ l : List (String × α), k ∉ l.map Prod.fst → alistLookup l k = none := by
  intro l
  induction l with
  | nil => intro _; rfl
  | cons p rest ih =>
      intro h
      simp only [List.map_cons, List.mem_cons] at h
      push_neg at h
      obtain ⟨p1, p2⟩ := p
      simp only [alistLookup]
      rw [if_neg (by simpa using fun he => h.1 he.symm), ih h.2]

theorem alistLookup_mapSet {α : Type} (k n : String) (v : α) :
    ∀ m : List (String × α),
      alistLookup (mapSet m k v) n = if k = n then some v else alistLookup m n := by
  intro m
  induction m with
  | nil => simp [mapSet, alistLookup]
  | cons p rest ih =>
      obtain ⟨p1, p2⟩ := p
      by_cases hpk : p1 = k
      · subst hpk
        simp only [mapSet, if_pos rfl, alistLookup]
        by_cases hkn : p1 = n
        · simp [hkn]
        · simp [hkn, alistLookup]
      · simp only [mapSet, if_neg hpk, alistLookup]
        by_cases hpn : p1 = n
        · subst hpn
          have : ¬ k = p1 := fun he => hpk he.symm
          simp [this]
        · simp [hpn, ih]

theorem lastNamed_cons {α : Type} (key : α → String) (t : α) (ts : List α) (n : String) :
    lastNamed key (t :: ts) n =
      match lastNamed key ts n with
      | some u => some u
      | none => if key t = n then some t else none := by
  have aux : ∀ (l : List α) (acc : Option α),
      List.foldl (fun a u => if key u = n then some u else a) acc l =
        match List.foldl (fun a u => if key u = n then some u else a) none l with
        | some u => some u
        | none => acc := by
    intro l
    induction l with
    | nil => intro acc; simp
    | cons x xs ih =>
        intro acc
        simp only [List.foldl_cons]
        rw [ih (if key x = n then some x else acc),
            ih (if key x = n then some x else none)]
        cases List.foldl (fun a u => if key u = n then some u else a) none xs with
        | some u => simp
        | none => by_cases hx : key x = n <;> simp [hx]
  simp only [lastNamed, List.foldl_cons]
  rw [aux ts (if key t = n then some t else none)]

theorem lookup_foldl_mapSet {α β : Type} (key : α → String) (val : α → β) (n : String) :
    ∀ (ts : List α) (reg : List (String × β)),
      alistLookup (ts.foldl (fun m t => mapSet m (key t) (val t)) reg) n =
        match lastNamed key ts n with
        | some t => some (val t)
        | none => alistLookup reg n := by
  intro ts
  induction ts with
  | nil => intro reg; simp [lastNamed]
  | cons t ts ih =>
      intro reg
      simp only [List.foldl_cons]
      rw [ih, lastNamed_cons]
      cases h : lastNamed key ts n with
      | some u => simp
      | none =>
          by_cases hk : key t = n
          · simp [hk, alistLookup_mapSet]
          · simp [hk, alistLookup_mapSet]

theorem lastNamed_isSome {α : Type} (key : α → String) (t : α) :
    ∀ ts : List α, t ∈ ts → (lastNamed key ts (key t)).isSome = true := by
  intro ts
  induction ts with
  | nil => intro h; cases h
  | cons x xs ih =>
      intro h
      rw [lastNamed_cons]
      cases hx : lastNamed key xs (key t) with
      | some u => simp
      | none =>
          cases h with
          | head => simp
          | tail _ h =>
              have hs := ih h
              rw [hx] at hs
              simp at hs

theorem traverseOption_cons_inv {α β : Type} (g : α → Option β) (a : α) (as : List α)
    (l' : List β) (h : traverseOption g (a :: as) = some l') :
    ∃ b bs, g a = some b ∧ traverseOption g as = some bs ∧ l' = b :: bs := by
  simp only [traverseOption] at h
  cases hga : g a with
  | none => rw [hga] at h; cases h
  | some b =>
      cases hgs : traverseOption g as with
      | none => rw [hga, hgs] at h; cases h
      | some bs =>
          rw [hga, hgs] at h
          exact ⟨b, bs, rfl, rfl, (Option.some.inj h).symm⟩

theorem traverseOption_keys {γ β : Type} (g : String × γ → Option (String × β))
    (hk : ∀ a b, g a = some b → b.1 = a.1) :
    ∀ (props : List (String × γ)) (shape : List (String × β)),
      traverseOption g props = some shape → shape.map Prod.fst = props.map Prod.fst := by
  intro props
  induction props with
  | nil => intro shape h; simp only [traverseOption] at h; simp [← Option.some.inj h]
  | cons p rest ih =>
      intro shape h
      obtain ⟨b, bs, hb, hbs, rfl⟩ := traverseOption_cons_inv g p rest shape h
      simp [hk p b hb, ih bs hbs]

theorem traverseOption_lookup {γ β : Type} (g : String × γ → Option (String × β))
    (hk : ∀ a b, g a = some b → b.1 = a.1) :
    ∀ (props : List (String × γ)) (shape : List (String × β)) (k : String) (nk : γ),
      traverseOption g props = some shape → (props.map Prod.fst).Nodup →
      (k, nk) ∈ props →
      ∃ z, g (k, nk) = some (k, z) ∧ alistLookup shape k = some z := by
  intro props
  induction props with
  | nil => intro _ _ _ _ _ hm; cases hm
  | cons p rest ih =>
      intro shape k nk h hnd hm
      obtain ⟨b, bs, hb, hbs, rfl⟩ := traverseOption_cons_inv g p rest shape h
      simp only [List.map_cons, List.nodup_cons] at hnd
      cases hm with
      | head =>
          have hb1 : b.1 = k := hk _ b hb
          refine ⟨b.2, ?_, ?_⟩
          · rw [hb]; rw [← hb1]
          · simp [alistLookup, hb1]
      | tail _ hm =>
          have hkrest : k ∈ rest.map Prod.fst :=
            List.mem_map.mpr ⟨(k, nk), hm, rfl⟩
          have hne : b.1 ≠ k := by
            rw [hk p b hb]
            intro he
            exact hnd.1 (he ▸ hkrest)
          obtain ⟨z, hz, hl⟩ := ih bs k nk hbs hnd.2 hm
          exact ⟨z, hz, by simp [alistLookup, hne, hl]⟩

theorem guard_error_ne_nil {l is : List Issue} {r : Option Json}
    (h : (if l.isEmpty then Except.ok r else Except.error l) = Except.error is) :
    is ≠ [] := by
  by_cases he : l.isEmpty
  · rw [if_pos he] at h; cases h
  · rw [if_neg he] at h
    injection h with h
    subst h
    intro hnil
    exact he (by simp [hnil])

theorem parseUnion_error_ne_nil :
    ∀ (opts : List ZodType) (v : Option Json) (is : List Issue),
      parseUnion opts v = .error is → is ≠ [] := by
  intro opts
  induction opts with
  | nil =>
      intro v is h
      simp only [parseUnion] at h
      injection h with h
      simp [← h]
  | cons t ts ih =>
      intro v is h
      simp only [parseUnion] at h
      cases hz : zodParse t v with
      | ok r => rw [hz] at h; cases h
      | error e => rw [hz] at h; exact ih v is h

theorem zodParse_error_ne_nil (t : ZodType) :
    ∀ (v : Option Json) (is : List Issue), zodParse t v = .error is → is ≠ [] := by
  match t with
  | .any => intro v is h; simp [zodParse] at h
  | .optional t' =>
      intro v is h
      match v with
      | none => simp [zodParse] at h
      | some x =>
          exact zodParse_error_ne_nil t' (some x) is (by simpa [zodParse] using h)
  | .string a b c =>
      intro v is h
      match v with
      | none => simp only [zodParse] at h; injection h with h; simp [← h]
      | some (.str s) =>
          simp only [zodParse.eq_def] at h
          exact guard_error_ne_nil h
      | some .null => simp only [zodParse] at h; injection h with h; simp [← h]
      | some (.bool x) => simp only [zodParse] at h; injection h with h; simp [← h]
      | some (.num x) => simp only [zodParse] at h; injection h with h; simp [← h]
      | some (.arr x) => simp only [zodParse] at h; injection h with h; simp [← h]
      | some (.obj x) => simp only [zodParse] at h; injection h with h; simp [← h]
  | .number a b c =>
      intro v is h
      match v with
      | none => simp only [zodParse] at h; injection h with h; simp [← h]
      | some (.num q) =>
          simp only [zodParse.eq_def] at h
          exact guard_error_ne_nil h
      | some .null => simp only [zodParse] at h; injection h with h; simp [← h]
      | some (.bool x) => simp only [zodParse] at h; injection h with h; simp [← h]
      | some (.str x) => simp only [zodParse] at h; injection h with h; simp [← h]
      | some (.arr x) => simp only [zodParse] at h; injection h with h; simp [← h]
      | some (.obj x) => simp only [zodParse] at h; injection h with h; simp [← h]
  | .boolean =>
      intro v is h
      match v with
      | none => simp only [zodParse] at h; injection h with h; simp [← h]
      | some (.bool b) => simp [zodParse] at h
      | some .null => simp only [zodParse] at h; injection h with h; simp [← h]
      | some (.num x) => simp only [zodParse] at h; injection h with h; simp [← h]
      | some (.str x) => simp only [zodParse] at h; injection h with h; simp [← h]
      | some (.arr x) => simp only [zodParse] at h; injection h with h; simp [← h]
      | some (.obj x) => simp only [zodParse] at h; injection h with h; simp [← h]
  | .literal lit =>
      intro v is h
      match v with
      | none => simp only [zodParse] at h; injection h with h; simp [← h]
      | some x =>
          simp only [zodParse] at h
          by_cases hb : Json.beq x lit
          · rw [if_pos hb] at h; cases h
          · rw [if_neg hb] at h; injection h with h; simp [← h]
  | .union opts =>
      intro v is h
      simp only [zodParse] at h
      exact parseUnion_error_ne_nil opts v is h
  | .array e mi ma =>
      intro v is h
      match v with
      | none => simp only [zodParse] at h; injection h with h; simp [← h]
      | some (.arr xs) =>
          simp only [zodParse.eq_def] at h
          exact guard_error_ne_nil h
      | some .null => simp only [zodParse] at h; injection h with h; simp [← h]
      | some (.bool x) => simp only [zodParse] at h; injection h with h; simp [← h]
      | some (.num x) => simp only [zodParse] at h; injection h with h; simp [← h]
      | some (.str x) => simp only [zodParse] at h; injection h with h; simp [← h]
      | some (.obj x) => simp only [zodParse] at h; injection h with h; simp [← h]
  | .object shape p =>
      intro v is h
      match v with
      | none => simp only [zodParse] at h; injection h with h; simp [← h]
      | some (.obj fields) =>
          simp only [zodParse] at h
          exact guard_error_ne_nil h
      | some .null => simp only [zodParse] at h; injection h with h; simp [← h]
      | some (.bool x) => simp only [zodParse] at h; injection h with h; simp [← h]
      | some (.num x) => simp only [zodParse] at h; injection h with h; simp [← h]
      | some (.str x) => simp only [zodParse] at h; injection h with h; simp [← h]
      | some (.arr x) => simp only [zodParse] at h; injection h with h; simp [← h]
  | .record valT =>
      intro v is h
      match v with
      | none => simp only [zodParse] at h; injection h with h; simp [← h]
      | some (.obj fields) =>
          simp only [zodParse] at h
          exact guard_error_ne_nil h
      | some .null => simp only [zodParse] at h; injection h with h; simp [← h]
      | some (.bool x) => simp only [zodParse] at h; injection h with h; simp [← h]
      | some (.num x) => simp only [zodParse] at h; injection h with h; simp [← h]
      | some (.str x) => simp only [zodParse] at h; injection h with h; simp [← h]
      | some (.arr x) => simp only [zodParse] at h; injection h with h; simp [← h]
termination_by sizeOf t

theorem parseShape_fst_keys :
    ∀ (shape : List (String × ZodType)) (fields : List (String × Json)) (k : String) (w : Json),
      (k, w) ∈ (parseShape shape fields).1 → k ∈ shape.map Prod.fst := by
  intro shape
  induction shape with
  | nil =>
      intro fields k w h
      simp only [parseShape] at h
      cases h
  | cons p rest ih =>
      intro fields k w h
      obtain ⟨p1, p2⟩ := p
      simp only [parseShape] at h
      cases hz : zodParse p2 (alistLookup fields p1) with
      | ok r =>
          cases r with
          | none =>
              rw [hz] at h
              exact List.mem_cons_of_mem _ (ih fields k w h)
          | some w0 =>
              rw [hz] at h
              rcases List.mem_cons.mp h with he | hm
              · simp [Prod.ext_iff] at he
                simp [he.1]
              · exact List.mem_cons_of_mem _ (ih fields k w hm)
      | error is =>
          rw [hz] at h
          exact List.mem_cons_of_mem _ (ih fields k w h)

theorem parseShape_lookup :
    ∀ (shape : List (String × ZodType)) (fields : List (String × Json)) (k : String)
      (t : ZodType),
      (shape.map Prod.fst).Nodup → (k, t) ∈ shape → (parseShape shape fields).2 = [] →
      ∃ r, zodParse t (alistLookup fields k) = .ok r ∧
        alistLookup (parseShape shape fields).1 k = r := by
  intro shape
  induction shape with
  | nil => intro _ _ _ _ hm; cases hm
  | cons p rest ih =>
      intro fields k t hnd hm hsnd
      obtain ⟨p1, p2⟩ := p
      simp only [List.map_cons, List.nodup_cons] at hnd
      simp only [parseShape] at hsnd ⊢
      cases hz : zodParse p2 (alistLookup fields p1) with
      | error is =>
          rw [hz] at hsnd
          have : is = [] := by
            have h1 := List.append_eq_nil.mp hsnd
            exact List.map_eq_nil_iff.mp h1.1
          exact absurd this (zodParse_error_ne_nil p2 _ is hz)
      | ok r0 =>
          rw [hz] at hsnd
          cases hm with
          | head =>
              cases r0 with
              | none =>
                  refine ⟨none, hz, ?_⟩
                  apply alistLookup_eq_none
                  intro hk
                  rcases List.mem_map.mp hk with ⟨⟨k', w'⟩, hmem, hfst⟩
                  exact hnd.1 (hfst ▸ parseShape_fst_keys rest fields k' w' hmem)
              | some w0 =>
                  exact ⟨some w0, hz, by simp [alistLookup]⟩
          | tail _ hm =>
              have hkrest : k ∈ rest.map Prod.fst := List.mem_map.mpr ⟨(k, t), hm, rfl⟩
              have hne : p1 ≠ k := fun he => hnd.1 (he ▸ hkrest)
              obtain ⟨r, hr, hl⟩ := ih fields k t hnd.2 hm (by cases r0 <;> simpa using hsnd)
              cases r0 with
              | none => exact ⟨r, hr, hl⟩
              | some w0 => exact ⟨r, hr, by simpa [alistLookup, hne] using hl⟩

theorem parseShape_issue_mem :
    ∀ (shape : List (String × ZodType)) (fields : List (String × Json)) (k : String)
      (t : ZodType) (is : List Issue) (i : Issue),
      (k, t) ∈ shape → zodParse t (alistLookup fields k) = .error is → i ∈ is →
      Issue.mk (k :: i.path) i.message ∈ (parseShape shape fields).2 := by
  intro shape
  induction shape with
  | nil => intro _ _ _ _ _ hm; cases hm
  | cons p rest ih =>
      intro fields k t is i hm he hi
      obtain ⟨p1, p2⟩ := p
      simp only [parseShape]
      cases hm with
      | head =>
          rw [he]
          apply List.mem_append_left
          exact List.mem_map.mpr ⟨i, hi, rfl⟩
      | tail _ hm =>
          have htail := ih fields k t is i hm he hi
          cases hz : zodParse p2 (alistLookup fields p1) with
          | ok r0 => cases r0 <;> simpa using htail
          | error e => exact List.mem_append_right _ htail

theorem zodParse_optional_some (t : ZodType) (x : Json) :
    zodParse (.optional t) (some x) = zodParse t (some x) := by
  simp [zodParse]

theorem zodParse_literal_id (lit x : Json) (r : Option Json)
    (h : zodParse (.literal lit) (some x) = .ok r) : r = some x := by
  simp only [zodParse] at h
  by_cases hb : Json.beq x lit
  · rw [if_pos hb] at h
    exact (Except.ok.inj h).symm
  · rw [if_neg hb] at h
    cases h

theorem parseUnion_literals_id :
    ∀ (vs : List Json) (x : Json) (r : Option Json),
      parseUnion (vs.map ZodType.literal) (some x) = .ok r → r = some x := by
  intro vs
  induction vs with
  | nil => intro x r h; simp [parseUnion] at h
  | cons v rest ih =>
      intro x r h
      simp only [List.map_cons, parseUnion] at h
      cases hz : zodParse (.literal v) (some x) with
      | ok r0 =>
          rw [hz] at h
          rw [← Except.ok.inj h]
          exact zodParse_literal_id v x r0 hz
      | error e =>
          rw [hz] at h
          exact ih x r h

theorem parseRecord_any : ∀ fs : List (String × Json), parseRecord .any fs = (fs, []) := by
  intro fs
  induction fs with
  | nil => simp [parseRecord]
  | cons p rest ih =>
      obtain ⟨k, x⟩ := p
      simp only [parseRecord, ih]
      have : zodParse .any (some x) = .ok (some x) := by simp [zodParse]
      rw [this]

theorem zodParse_string_id (a b : Option Nat) (p : Option (String → Bool)) (x : Json)
    (r : Option Json) (h : zodParse (.string a b p) (some x) = .ok r) : r = some x := by
  match x with
  | .str s =>
      simp only [zodParse.eq_def] at h
      split at h
      · exact (Except.ok.inj h).symm
      · cases h
  | .null => simp [zodParse.eq_def] at h
  | .bool v => simp [zodParse.eq_def] at h
  | .num v => simp [zodParse.eq_def] at h
  | .arr v => simp [zodParse.eq_def] at h
  | .obj v => simp [zodParse.eq_def] at h

theorem zodParse_number_id (isInt : Bool) (a b : Option Rat) (x : Json)
    (r : Option Json) (h : zodParse (.number isInt a b) (some x) = .ok r) : r = some x := by
  match x with
  | .num q =>
      simp only [zodParse.eq_def] at h
      repeat' split at h
      all_goals first
        | exact (Except.ok.inj h).symm
        | cases h
  | .null => simp [zodParse.eq_def] at h
  | .bool v => simp [zodParse.eq_def] at h
  | .str v => simp [zodParse.eq_def] at h
  | .arr v => simp [zodParse.eq_def] at h
  | .obj v => simp [zodParse.eq_def] at h

theorem zodParse_boolean_id (x : Json) (r : Option Json)
    (h : zodParse .boolean (some x) = .ok r) : r = some x := by
  match x with
  | .bool v =>
      simp only [zodParse.eq_def] at h
      exact (Except.ok.inj h).symm
  | .null => simp [zodParse.eq_def] at h
  | .num v => simp [zodParse.eq_def] at h
  | .str v => simp [zodParse.eq_def] at h
  | .arr v => simp [zodParse.eq_def] at h
  | .obj v => simp [zodParse.eq_def] at h

theorem zodParse_record_any_id (x : Json) (r : Option Json)
    (h : zodParse (.record .any) (some x) = .ok r) : r = some x := by
  match x with
  | .obj fields =>
      simp only [zodParse.eq_def, parseRecord_any] at h
      simp at h
      simp [← h]
  | .null => simp [zodParse.eq_def] at h
  | .bool b => simp [zodParse.eq_def] at h
  | .num q => simp [zodParse.eq_def] at h
  | .str s => simp [zodParse.eq_def] at h
  | .arr xs => simp [zodParse.eq_def] at h

theorem isPrimNode_ty (f : SchemaFields SchemaNode)
    (hp : isPrimNode (.node f) = true) (henm : f.enm = none) (hcst : f.cst = none) :
    f.ty = some "string" ∨ f.ty = some "number" ∨ f.ty = some "integer" ∨
      f.ty = some "boolean" := by
  simp only [isPrimNode, henm, hcst, Option.isSome_none, Bool.false_or] at hp
  split at hp
  · exact Or.inl (by assumption)
  · exact Or.inr (Or.inl (by assumption))
  · exact Or.inr (Or.inr (Or.inl (by assumption)))
  · exact Or.inr (Or.inr (Or.inr (by assumption)))
  · cases hp

theorem prim_compile_parse_id (rc : String → Option (String → Bool)) (fuel : Nat)
    (nk : SchemaNode) (tc : ZodType) (x : Json) (r : Option Json)
    (hp : isPrimNode nk = true) (hc : jsonSchemaPropToZod rc fuel nk = some tc)
    (h : zodParse tc (some x) = .ok r) : r = some x := by
  match fuel, nk with
  | 0, _ => simp [jsonSchemaPropToZod] at hc
  | _ + 1, .jnull => simp [isPrimNode] at hp
  | _ + 1, .native t => simp [isPrimNode] at hp
  | fuel + 1, .node f =>
      simp only [jsonSchemaPropToZod] at hc
      cases henm : f.enm with
      | some vs =>
          rw [henm] at hc
          simp only at hc
          injection hc with hc
          match vs, hc with
          | [], hc =>
              simp only [List.map_nil] at hc
              rw [← hc] at h
              simp [zodParse, parseUnion] at h
          | [v], hc =>
              simp only [List.map_cons, List.map_nil] at hc
              rw [← hc] at h
              exact zodParse_literal_id v x r h
          | v1 :: v2 :: rest, hc =>
              simp only [List.map_cons] at hc
              rw [← hc] at h
              simp only [zodParse] at h
              exact parseUnion_literals_id (v1 :: v2 :: rest) x r (by simpa using h)
      | none =>
          rw [henm] at hc
          cases hcst : f.cst with
          | some c =>
              rw [hcst] at hc
              simp only at hc
              injection hc with hc
              rw [← hc] at h
              exact zodParse_literal_id c x r h
          | none =>
              rw [hcst] at hc
              simp only at hc
              rcases isPrimNode_ty f hp henm hcst with hty | hty | hty | hty <;>
                rw [hty] at hc <;> simp only at hc <;> injection hc with hc <;> rw [← hc] at h
              · exact zodParse_string_id _ _ _ x r h
              · exact zodParse_number_id _ _ _ x r h
              · exact zodParse_number_id _ _ _ x r h
              · exact zodParse_boolean_id x r h

theorem rootPropZod_key (rc : String → Option (String → Bool)) (fuel : Nat)
    (req : List String) :
    ∀ (a : String × SchemaNode) (b : String × ZodType),
      rootPropZod rc fuel req a = some b → b.1 = a.1 := by
  intro a b h
  obtain ⟨k, nk⟩ := a
  simp only [rootPropZod] at h
  by_cases hf : isFreeformObject nk
  · rw [if_pos hf] at h
    simp [← Option.some.inj h]
  · rw [if_neg hf] at h
    cases hc : jsonSchemaPropToZod rc fuel nk with
    | none => rw [hc] at h; cases h
    | some c =>
        rw [hc] at h
        simp only [Option.map_some'] at h
        simp [← Option.some.inj h]

theorem rootPropZod_parse_id (rc : String → Option (String → Bool)) (fuel : Nat)
    (req : List String) (k : String) (nk : SchemaNode) (z : ZodType) (x : Json)
    (r : Option Json) (hp : isPrimNode nk = true)
    (hz : rootPropZod rc fuel req (k, nk) = some (k, z))
    (h : zodParse z (some x) = .ok r) : r = some x := by
  simp only [rootPropZod] at hz
  by_cases hf : isFreeformObject nk
  · rw [if_pos hf] at hz
    have hz2 : (if req.contains k then ZodType.record .any
        else .optional (.record .any)) = z := by
      have := Option.some.inj hz
      simpa using congrArg Prod.snd this
    by_cases hr : req.contains k
    · rw [if_pos hr] at hz2
      rw [← hz2] at h
      exact zodParse_record_any_id x r h
    · rw [if_neg hr] at hz2
      rw [← hz2] at h
      rw [zodParse_optional_some] at h
      exact zodParse_record_any_id x r h
  · rw [if_neg hf] at hz
    cases hc : jsonSchemaPropToZod rc fuel nk with
    | none => rw [hc] at hz; cases hz
    | some c =>
        rw [hc] at hz
        simp only [Option.map_some'] at hz
        have hz2 : (if req.contains k then c else .optional c) = z := by
          have := Option.some.inj hz
          simpa using congrArg Prod.snd this
        by_cases hr : req.contains k
        · rw [if_pos hr] at hz2
          rw [← hz2] at h
          exact prim_compile_parse_id rc fuel nk c x r hp hc h
        · rw [if_neg hr] at hz2
          rw [← hz2] at h
          rw [zodParse_optional_some] at h
          exact prim_compile_parse_id rc fuel nk c x r hp hc h

theorem jsonSchemaToZodRoot_object_inv (rc : String → Option (String → Bool)) (fuel : Nat)
    (f : SchemaFields SchemaNode) (t : ZodType)
    (hroot : jsonSchemaToZodRoot rc fuel (.node f) = some t)
    (hcond : (f.ty == some "object" || f.properties.isSome) = true) :
    ∃ shape,
      traverseOption (rootPropZod rc fuel (f.required.getD [])) (f.properties.getD [])
          = some shape ∧ t = .object shape false := by
  simp only [jsonSchemaToZodRoot] at hroot
  rw [if_pos hcond] at hroot
  cases htr : traverseOption (rootPropZod rc fuel (f.required.getD []))
      (f.properties.getD []) with
  | none => rw [htr] at hroot; cases hroot
  | some shape =>
      rw [htr] at hroot
      simp only [Option.map_some'] at hroot
      exact ⟨shape, rfl, (Option.some.inj hroot).symm⟩

theorem zodParse_object_ok (shape : List (String × ZodType)) (pass : Bool)
    (fields : List (String × Json)) (w : Json)
    (h : zodParse (.object shape pass) (some (.obj fields)) = .ok (some w)) :
    (parseShape shape fields).2 = [] ∧
      w = .obj (if pass
        then (parseShape shape fields).1
          ++ fields.filter (fun fd => (alistLookup shape fd.1).isNone)
        else (parseShape shape fields).1) := by
  simp only [zodParse.eq_def] at h
  by_cases he : (parseShape shape fields).2.isEmpty
  · rw [if_pos he] at h
    refine ⟨List.isEmpty_iff.mp he, ?_⟩
    exact (Option.some.inj (Except.ok.inj h)).symm
  · rw [if_neg he] at h
    cases h

theorem traverseOption_mem {α β : Type} (g : α → Option β) :
    ∀ (l : List α) (l' : List β) (a : α),
      traverseOption g l = some l' → a ∈ l → ∃ b, g a = some b ∧ b ∈ l' := by
  intro l
  induction l with
  | nil => intro _ _ _ hm; cases hm
  | cons x xs ih =>
      intro l' a h hm
      obtain ⟨b, bs, hb, hbs, rfl⟩ := traverseOption_cons_inv g x xs l' h
      cases hm with
      | head => exact ⟨b, hb, List.mem_cons_self _ _⟩
      | tail _ hm =>
          obtain ⟨b', hb', hm'⟩ := ih bs a hbs hm
          exact ⟨b', hb', List.mem_cons_of_mem _ hm'⟩

theorem alistLookup_mem {α : Type} (k : String) (v : α) :
    ∀ l : List (String × α), alistLookup l k = some v → (k, v) ∈ l := by
  intro l
  induction l with
  | nil => intro h; cases h
  | cons p rest ih =>
      intro h
      obtain ⟨p1, p2⟩ := p
      simp only [alistLookup] at h
      by_cases hk : p1 = k
      · rw [if_pos hk] at h
        subst hk
        rw [← Option.some.inj h]
        exact List.mem_cons_self _ _
      · rw [if_neg hk] at h
        exact List.mem_cons_of_mem _ (ih h)

end Lemmas

section Claims

/-- C6: a schema document that already behaves as a validator (it exposes a
`parse`/`_parse` capability) is returned by the root compiler itself,
unchanged — no wrapping, no re-compilation. -/
theorem native_schema_returned_unchanged (rc : String → Option (String → Bool))
    (fuel : Nat) (t : ZodType) :
    jsonSchemaToZodRoot rc fuel (.native t) = some t := rfl

/-- C10: for a tool name absent from the validator registry, `parseToolInput`
returns the empty object, whatever the raw arguments are, and raises no
error. -/
theorem unknown_tool_returns_empty_object (m : List (String × ZodType))
    (toolName : String) (input : Option Json)
    (habs : alistLookup m toolName = none) :
    parseToolInput m toolName input = .ok (.obj []) := by
  simp [parseToolInput, habs]

/-- C10 witness: the empty registry, the name `"doesNotExist"` and non-trivial
raw arguments. -/
theorem unknown_tool_returns_empty_object_witness :
    parseToolInput [] "doesNotExist" (some (.obj [("x", .str "y")])) = .ok (.obj []) :=
  unknown_tool_returns_empty_object [] "doesNotExist" (some (.obj [("x", .str "y")])) rfl

/-- C7: a string-typed schema node whose `pattern` fails to compile as a
regular expression (`rc p = none`) still compiles — to a string validator
with the pattern constraint silently dropped — and that validator accepts
every string satisfying the remaining min/max length constraints. -/
theorem invalid_pattern_ignored (rc : String → Option (String → Bool)) (fuel : Nat)
    (f : SchemaFields SchemaNode) (p : String)
    (henm : f.enm = none) (hcst : f.cst = none) (hty : f.ty = some "string")
    (hpat : f.pattern = some p) (hrc : rc p = none) :
    jsonSchemaPropToZod rc (fuel + 1) (.node f)
        = some (.string f.minLength f.maxLength none) ∧
      ∀ s : String,
        (∀ m, f.minLength = some m → m ≤ s.length) →
        (∀ m, f.maxLength = some m → s.length ≤ m) →
        zodParse (.string f.minLength f.maxLength none) (some (.str s))
          = .ok (some (.str s)) := by
  constructor
  · simp [jsonSchemaPropToZod, henm, hcst, hty, hpat, hrc]
  · intro s hmin hmax
    simp only [zodParse.eq_def]
    have h1 : (match f.minLength with
        | some m => if s.length < m then [Issue.mk [] "Too small"] else []
        | none => []) = [] := by
      cases hml : f.minLength with
      | none => rfl
      | some m => simp [Nat.not_lt.mpr (hmin m hml)]
    have h2 : (match f.maxLength with
        | some m => if s.length > m then [Issue.mk [] "Too big"] else []
        | none => []) = [] := by
      cases hml : f.maxLength with
      | none => rfl
      | some m => simp [Nat.not_lt.mpr (hmax m hml)]
    simp [h1, h2]

/-- C7 witness: under `rcNone` the pattern `"(("` fails to compile; the node
still compiles and the result accepts `"anything"`. -/
theorem invalid_pattern_ignored_witness :
    jsonSchemaPropToZod rcNone 1 (.node badPatternFields)
        = some (.string none none none) ∧
      zodParse (.string none none none) (some (.str "anything"))
        = .ok (some (.str "anything")) := by
  have h := invalid_pattern_ignored rcNone 0 badPatternFields "((" rfl rfl rfl rfl rfl
  exact ⟨h.1, h.2 "anything" (fun m hm => by cases hm) (fun m hm => by cases hm)⟩

/-- C2 (on the failing input): on the structurally well-formed node
`{type:"vendor-custom", properties:{}}` — and on any object document with
such a property — the compiler does not terminate: the default branch
re-dispatches `{type:"object", ...schema}`, but the spread restores the
unrecognized `type`, so the argument never changes, every level of fuel
(call stack) is consumed and the compilation raises instead of degrading to
an accept-all validator. -/
theorem compile_diverges_on_unknown_type_with_properties
    (rc : String → Option (String → Bool)) (fuel : Nat) :
    jsonSchemaPropToZod rc fuel badPropNode = none ∧
      jsonSchemaToZodRoot rc fuel badRootNode = none := by
  have hp : ∀ n, jsonSchemaPropToZod rc n badPropNode = none := by
    intro n
    induction n with
    | zero => rfl
    | succ n ih => exact ih
  refine ⟨hp fuel, ?_⟩
  have hff : isFreeformObject badPropNode = false := rfl
  simp [jsonSchemaToZodRoot, badRootNode, rootPropZod, traverseOption, hff, hp fuel]

/-- C3 (with the spec-modelled dispatcher boundary): composed with
`dispatchTool`, the per-tool callback registered for a Goat-SDK tool never
lets an exception escape: every call produces an envelope, a normal result is
passed through, and any thrown exception — a validation failure from
`parseToolInput` or a provider handler failure — becomes the envelope's error
form. -/
theorem handler_exceptions_become_error_envelopes
    (m : List (String × ZodType)) (toolHandler : String → Json → Except String Json)
    (name : String) (args : Option Json) :
    (∃ r, goatToolCallback m toolHandler name args = .ok r ∧
        dispatchTool (goatToolCallback m toolHandler name) args = r) ∨
    (∃ msg, goatToolCallback m toolHandler name args = .error msg ∧
        dispatchTool (goatToolCallback m toolHandler name) args
          = ⟨[⟨"text", msg⟩], true⟩) := by
  cases h : goatToolCallback m toolHandler name args with
  | ok r => exact Or.inl ⟨r, rfl, by simp [dispatchTool, h]⟩
  | error msg => exact Or.inr ⟨msg, rfl, by simp [dispatchTool, h]⟩

/-- C9 (with the spec-modelled registry): when several registrations share a
name, the built registry maps that name to the last-registered tool — the
later provider's handler is the one reachable by name, the earlier one is
replaced, and registration itself is total (no crash). -/
theorem later_registration_wins (ts : List (String × RegisteredTool)) (n : String)
    (p : String × RegisteredTool) (hlast : lastNamed Prod.fst ts n = some p) :
    alistLookup (registerAll ts) n = some p.2 := by
  have h := lookup_foldl_mapSet (Prod.fst (α := String) (β := RegisteredTool))
    Prod.snd n ts []
  rw [hlast] at h
  exact h

/-- C9 witness: the registry built from two same-named registrations holds the
second one. -/
theorem later_registration_wins_witness :
    alistLookup (registerAll [("get_account", firstRegistered),
      ("get_account", secondRegistered)]) "get_account" = some secondRegistered :=
  later_registration_wins _ "get_account" ("get_account", secondRegistered) rfl

/-- C4 (amended): the registry builder yields an entry for every descriptor;
each name's entry depends only on the last descriptor carrying that name (one
tool's failure never aborts or affects the rest); when compiling a tool's
schema throws, its entry is the empty-object validator `z.object({})` — which
accepts any object input, producing the empty object, but is not an
accept-all validator. -/
theorem registry_isolates_per_tool_failures (rc : String → Option (String → Bool))
    (fuel : Nat) (ts : List ToolDescriptor) :
    (∀ t, t ∈ ts → (alistLookup (buildToolZodMap rc fuel ts) t.name).isSome = true) ∧
    (∀ n t, lastNamed ToolDescriptor.name ts n = some t →
        alistLookup (buildToolZodMap rc fuel ts) n = some (compiledEntry rc fuel t)) ∧
    (∀ t, jsonSchemaToZodRoot rc fuel (rawSchema t) = none →
        compiledEntry rc fuel t = .object [] false) ∧
    (∀ fields, zodParse (.object [] false) (some (.obj fields)) = .ok (some (.obj []))) := by
  have hmain : ∀ n, alistLookup (buildToolZodMap rc fuel ts) n =
      match lastNamed ToolDescriptor.name ts n with
      | some t => some (compiledEntry rc fuel t)
      | none => none := by
    intro n
    have h := lookup_foldl_mapSet ToolDescriptor.name (compiledEntry rc fuel) n ts []
    cases hl : lastNamed ToolDescriptor.name ts n with
    | some t => rw [hl] at h; exact h
    | none => rw [hl] at h; exact h
  refine ⟨?_, ?_, ?_, ?_⟩
  · intro t ht
    rw [hmain t.name]
    cases hl : lastNamed ToolDescriptor.name ts t.name with
    | some u => simp
    | none =>
        have := lastNamed_isSome ToolDescriptor.name t ts ht
        rw [hl] at this
        cases this
  · intro n t hl
    rw [hmain n, hl]
  · intro t h
    simp [compiledEntry, h]
  · intro fields
    simp [zodParse, parseShape]

/-- C4 witness: on the batch `[badTool]`, whose only schema diverges during
compilation, the registry still holds an entry for `"bad"`, that entry is the
per-tool fallback, the fallback equation holds, and the fallback accepts an
arbitrary object. -/
theorem registry_isolates_per_tool_failures_witness :
    (alistLookup (buildToolZodMap rcNone 8 [badTool]) "bad").isSome = true ∧
      alistLookup (buildToolZodMap rcNone 8 [badTool]) "bad"
        = some (compiledEntry rcNone 8 badTool) ∧
      compiledEntry rcNone 8 badTool = .object [] false ∧
      zodParse (.object [] false) (some (.obj [("a", .str "b")]))
        = .ok (some (.obj [])) := by
  have h := registry_isolates_per_tool_failures rcNone 8 [badTool]
  exact ⟨h.1 badTool (List.mem_singleton.mpr rfl), h.2.1 "bad" badTool rfl,
    h.2.2.1 badTool rfl, h.2.2.2 [("a", .str "b")]⟩

/-- C4 counterexample: the failing tool's entry is `z.object({})`, not an
accept-all validator — it rejects the non-object input `"x"`, and on an
object input it does not pass the arguments through but strips them all. -/
theorem registry_fallback_not_accept_all :
    alistLookup (buildToolZodMap rcNone 8 [badTool]) "bad"
        = some (.object [] false) ∧
      zodParse (.object [] false) (some (.str "x"))
        = .error [⟨[], "Expected object, received string"⟩] ∧
      zodParse (.object [] false) (some (.obj [("a", .str "b")]))
        = .ok (some (.obj [])) := by
  refine ⟨rfl, ?_, ?_⟩
  · simp [zodParse, Json.typeName]
  · simp [zodParse, parseShape]

/-- C8: in an object document, a property whose own schema is an object with
no declared properties and the explicit `additionalProperties:true` marker is
compiled by the root compiler to the free-form mapping `z.record(z.any())`
(optional-wrapped when not required), and that record validator accepts any
object — arbitrary keys with arbitrary values — returning it whole, rather
than behaving as a closed empty object. -/
theorem freeform_property_compiles_to_record (rc : String → Option (String → Bool))
    (fuel : Nat) (f : SchemaFields SchemaNode) (t : ZodType) (k : String)
    (p : SchemaNode)
    (hroot : jsonSchemaToZodRoot rc fuel (.node f) = some t)
    (hmem : (k, p) ∈ f.properties.getD [])
    (hff : isFreeformObject p = true)
    (hnd : ((f.properties.getD []).map Prod.fst).Nodup) :
    ∃ shape, t = .object shape false ∧
      alistLookup shape k = some (if (f.required.getD []).contains k
        then ZodType.record .any else .optional (.record .any)) ∧
      ∀ fields, zodParse (.record .any) (some (.obj fields))
        = .ok (some (.obj fields)) := by
  have hcond : (f.ty == some "object" || f.properties.isSome) = true := by
    cases hprop : f.properties with
    | none => rw [hprop] at hmem; cases hmem
    | some l => simp [hprop]
  obtain ⟨shape, htr, rfl⟩ := jsonSchemaToZodRoot_object_inv rc fuel f t hroot hcond
  obtain ⟨z, hz, hl⟩ := traverseOption_lookup _ (rootPropZod_key rc fuel _) _ shape
    k p htr hnd hmem
  have hzval : rootPropZod rc fuel (f.required.getD []) (k, p)
      = some (k, if (f.required.getD []).contains k then ZodType.record .any
          else .optional (.record .any)) := by
    simp [rootPropZod, hff]
  rw [hzval] at hz
  have hzeq : (if (f.required.getD []).contains k then ZodType.record .any
      else .optional (.record .any)) = z := by
    have := Option.some.inj hz
    simpa using congrArg Prod.snd this
  refine ⟨shape, rfl, hzeq ▸ hl, ?_⟩
  intro fields
  rw [zodParse.eq_def]
  simp [parseRecord_any]

/-- C8 witness: compiling the concrete root yields the record validator for
`"metadata"`, and `z.record(z.any())` accepts an arbitrary two-key object. -/
theorem freeform_property_compiles_to_record_witness :
    ∃ shape,
      (ZodType.object [("metadata", .optional (.record .any))] false)
          = .object shape false ∧
        alistLookup shape "metadata"
          = some (if (([] : List String)).contains "metadata"
              then ZodType.record .any else .optional (.record .any)) ∧
        ∀ fields, zodParse (.record .any) (some (.obj fields))
          = .ok (some (.obj fields)) := by
  have h := freeform_property_compiles_to_record rcNone 3 freeformRootFields
    (.object [("metadata", .optional (.record .any))] false) "metadata" freeformNode
    rfl (List.mem_singleton.mpr rfl) rfl (by decide)
  exact h

/-- C1 (amended): a validator compiled by `jsonSchemaToZodRoot` from an
object document hands back the declared fields of a passing input unchanged
(shown for declared fields of enum/const/primitive kind; free-form record
fields are likewise returned whole), but a field not listed in `properties`
is stripped from the validated result: the root validator ends in
`.strip()`, not passthrough. -/
theorem root_validator_result_fields (rc : String → Option (String → Bool))
    (fuel : Nat) (f : SchemaFields SchemaNode) (t : ZodType)
    (fields : List (String × Json)) (w : Json)
    (hroot : jsonSchemaToZodRoot rc fuel (.node f) = some t)
    (hcond : (f.ty == some "object" || f.properties.isSome) = true)
    (hparse : zodParse t (some (.obj fields)) = .ok (some w)) :
    (∀ k, k ∉ (f.properties.getD []).map Prod.fst → jsonLookup w k = none) ∧
    (∀ k nk v, ((f.properties.getD []).map Prod.fst).Nodup →
      (k, nk) ∈ f.properties.getD [] → isPrimNode nk = true →
      alistLookup fields k = some v → jsonLookup w k = some v) := by
  obtain ⟨shape, htr, rfl⟩ := jsonSchemaToZodRoot_object_inv rc fuel f t hroot hcond
  have hkeys := traverseOption_keys _ (rootPropZod_key rc fuel _) _ shape htr
  obtain ⟨hsnd, hw⟩ := zodParse_object_ok shape false fields w hparse
  have hw' : w = .obj (parseShape shape fields).1 := by simpa using hw
  constructor
  · intro k hk
    rw [hw']
    show alistLookup (parseShape shape fields).1 k = none
    apply alistLookup_eq_none
    intro hmem
    rcases List.mem_map.mp hmem with ⟨⟨k', w'⟩, hmem', hfst⟩
    have hks : k' ∈ shape.map Prod.fst := parseShape_fst_keys shape fields k' w' hmem'
    rw [hkeys] at hks
    exact hk (hfst ▸ hks)
  · intro k nk v hnd hmem hp hlk
    have hndshape : (shape.map Prod.fst).Nodup := by rw [hkeys]; exact hnd
    obtain ⟨z, hz, hls⟩ := traverseOption_lookup _ (rootPropZod_key rc fuel _) _ shape
      k nk htr hnd hmem
    have hmemshape : (k, z) ∈ shape := alistLookup_mem k z shape hls
    obtain ⟨r, hr, hlook⟩ := parseShape_lookup shape fields k z hndshape hmemshape hsnd
    rw [hlk] at hr
    have hrv : r = some v := rootPropZod_parse_id rc fuel _ k nk z v r hp hz hr
    rw [hw']
    show alistLookup (parseShape shape fields).1 k = some v
    rw [hlook, hrv]

/-- C1 witness: for the compiled §8 scenario schema, the passing input
`{address:"0xdead", foo:"bar"}` yields a result in which `address` carries
its original value and the unlisted `foo` is gone. -/
theorem root_validator_result_fields_witness :
    jsonLookup (.obj [("address", .str "0xdead")]) "foo" = none ∧
      jsonLookup (.obj [("address", .str "0xdead")]) "address"
        = some (.str "0xdead") := by
  have hparse : zodParse (ZodType.object [("address", .string none none none)] false)
      (some (.obj [("address", .str "0xdead"), ("foo", .str "bar")]))
      = .ok (some (.obj [("address", .str "0xdead")])) := by
    simp [zodParse, parseShape, alistLookup]
  have h := root_validator_result_fields rcNone 2 getAccountFields
    (.object [("address", .string none none none)] false)
    [("address", .str "0xdead"), ("foo", .str "bar")]
    (.obj [("address", .str "0xdead")]) rfl (by decide) hparse
  refine ⟨h.1 "foo" (by decide), ?_⟩
  exact h.2 "address" addressStringNode (.str "0xdead") (by decide)
    (List.mem_singleton.mpr rfl) rfl rfl

/-- C1 counterexample: running the spec's §8 scenario through
`buildToolZodMap` and `parseToolInput`, the extra field `foo:"bar"` of the
valid input is NOT preserved — the validated result is `{address:"0xabc"}`
with `foo` absent, contradicting the claimed open-object passthrough. -/
theorem unlisted_field_stripped_at_root :
    parseToolInput (buildToolZodMap rcNone 2 [⟨"get_account", some getAccountSchema⟩])
        "get_account" (some (.obj [("address", .str "0xabc"), ("foo", .str "bar")]))
      = .ok (.obj [("address", .str "0xabc")]) ∧
      jsonLookup (.obj [("address", .str "0xabc")]) "foo" = none := by
  constructor
  · simp [parseToolInput, buildToolZodMap, compiledEntry, mapSet, alistLookup, zodParse,
      joinSep, formatIssue, jsonSchemaToZodRoot, rawSchema, jsonSchemaPropToZod,
      isZodObject, rootPropZod, isFreeformObject, traverseOption, parseShape,
      getAccountSchema, getAccountFields, addressStringNode, addressStringFields]
  · rfl

/-- C5 (amended): when validation fails, `parseToolInput` raises one
diagnostic message concatenating each failing field path with its reason;
in particular, an input missing a required field whose declared sub-schema is
string-typed fails validation and the message names the field
(`"<field>: Required"`).  A required field whose sub-schema compiles to
accept-all is not enforced — see the counterexample. -/
theorem missing_required_field_named_in_error (rc : String → Option (String → Bool))
    (fuel : Nat) (f g : SchemaFields SchemaNode) (t : ZodType)
    (m : List (String × ZodType)) (name k : String) (fields : List (String × Json))
    (hroot : jsonSchemaToZodRoot rc fuel (.node f) = some t)
    (hm : alistLookup m name = some t)
    (hmem : (k, .node g) ∈ f.properties.getD [])
    (hty : g.ty = some "string") (henm : g.enm = none) (hcst : g.cst = none)
    (hreq : (f.required.getD []).contains k = true)
    (hmiss : alistLookup fields k = none) :
    ∃ pre post,
      parseToolInput m name (some (.obj fields))
        = .error ("Input validation failed for tool \"" ++ name ++ "\": "
            ++ (pre ++ (k ++ ": Required") ++ post)) := by
  have hcond : (f.ty == some "object" || f.properties.isSome) = true := by
    cases hprop : f.properties with
    | none => rw [hprop] at hmem; cases hmem
    | some l => simp [hprop]
  obtain ⟨shape, htr, rfl⟩ := jsonSchemaToZodRoot_object_inv rc fuel f t hroot hcond
  obtain ⟨b, hb, hbmem⟩ := traverseOption_mem _ _ shape (k, .node g) htr hmem
  have hff : isFreeformObject (.node g) = false := by
    simp [isFreeformObject, hty]
  rw [rootPropZod] at hb
  rw [if_neg (by simp [hff])] at hb
  cases hc : jsonSchemaPropToZod rc fuel (.node g) with
  | none => rw [hc] at hb; cases hb
  | some c =>
      rw [hc] at hb
      simp only [Option.map_some'] at hb
      rw [if_pos hreq] at hb
      have hbkc : b = (k, c) := (Option.some.inj hb).symm
      match fuel, hc with
      | 0, hc => simp [jsonSchemaPropToZod] at hc
      | fuel + 1, hc =>
          simp only [jsonSchemaPropToZod, henm, hcst, hty] at hc
          have hcval : c = .string g.minLength g.maxLength (g.pattern.bind rc) :=
            (Option.some.inj hc).symm
          have hfield : zodParse c (alistLookup fields k)
              = .error [⟨[], "Required"⟩] := by
            rw [hmiss, hcval]
            simp [zodParse]
          have hmemsnd : Issue.mk [k] "Required" ∈ (parseShape shape fields).2 :=
            parseShape_issue_mem shape fields k c [⟨[], "Required"⟩] ⟨[], "Required"⟩
              (hbkc ▸ hbmem) hfield (List.mem_singleton.mpr rfl)
          have hemp : (parseShape shape fields).2.isEmpty = false := by
            cases hsnd2 : (parseShape shape fields).2 with
            | nil => rw [hsnd2] at hmemsnd; cases hmemsnd
            | cons a l => rfl
          have hobj : zodParse (.object shape false) (some (.obj fields))
              = .error (parseShape shape fields).2 := by
            rw [zodParse.eq_def]
            simp [hemp]
          have hfmt : formatIssue ⟨[k], "Required"⟩ = k ++ ": Required" := by
            simp only [formatIssue, joinSep, List.isEmpty_cons, if_neg]
            rw [String.append_assoc]
            rfl
          have hmemfmt : (k ++ ": Required") ∈ (parseShape shape fields).2.map formatIssue := by
            rw [← hfmt]
            exact List.mem_map.mpr ⟨_, hmemsnd, rfl⟩
          obtain ⟨pre, post, hjoin⟩ := joinSep_infix "; " _ _ hmemfmt
          refine ⟨pre, post, ?_⟩
          simp only [parseToolInput, hm]
          rw [hobj]
          simp only [hjoin]

/-- C5 witness: the registry maps `"get_account"` to the compiled §8 schema;
the input `{}` misses the required string field `address`, and the raised
message contains `"address: Required"`. -/
theorem missing_required_field_named_in_error_witness :
    ∃ pre post,
      parseToolInput
          [("get_account", ZodType.object [("address", .string none none none)] false)]
          "get_account" (some (.obj []))
        = .error ("Input validation failed for tool \"get_account\": "
            ++ (pre ++ ("address" ++ ": Required") ++ post)) :=
  missing_required_field_named_in_error rcNone 2 getAccountFields addressStringFields
    (.object [("address", .string none none none)] false)
    [("get_account", .object [("address", .string none none none)] false)]
    "get_account" "address" [] rfl rfl (List.mem_singleton.mpr rfl)
    rfl rfl rfl rfl rfl

/-- C5 counterexample: `requiredAnySchema` declares `p` required, but its
sub-schema is the empty document, which compiles to accept-all; the input
`{}` — missing the required field — VALIDATES: `parseToolInput` returns the
empty object and raises no error naming `p`. -/
theorem missing_required_accept_all_field_not_reported :
    parseToolInput (buildToolZodMap rcNone 2 [⟨"t", some requiredAnySchema⟩]) "t"
        (some (.obj [])) = .ok (.obj []) := by
  simp [parseToolInput, buildToolZodMap, compiledEntry, mapSet, alistLookup, zodParse,
    jsonSchemaToZodRoot, rawSchema, jsonSchemaPropToZod, isZodObject, rootPropZod,
    isFreeformObject, traverseOption, parseShape, requiredAnySchema, emptyPropNode]

end Claims

end VechainMcp
